import Mathlib

/-!
Verification development for the document review dashboard
(`src/app.py`, `src/utils.py`): a shallow embedding of the
catalog loader, the version pair generator, the review session state
transitions and the audit-trail CSV export, with theorems checking the
specification's testable properties against the embedded code.
-/

namespace DocReview

/-- Embedding of `generate_comparison_pairs` (src/utils.py lines 237-244):

```
if len(versions) < 2: return []
pairs = [(versions[i], versions[i+1]) for i in range(len(versions)-1)]
if len(versions) > 2: pairs.append((versions[0], versions[-1]))
return pairs
```

List indexing `versions[i]` is rendered as `getD i 0`; every index used is
in range (`i + 1 <= len - 1` and, under the `len >= 2` guard, `len - 1` is a
valid index for `versions[-1]`), so the default is never consulted. -/
def generate_comparison_pairs (versions : List Int) : List (Int × Int) :=
  if versions.length < 2 then []
  else
    let pairs := (List.range (versions.length - 1)).map
      (fun i => (versions.getD i 0, versions.getD (i + 1) 0))
    if versions.length > 2 then
      pairs ++ [(versions.getD 0 0, versions.getD (versions.length - 1) 0)]
    else
      pairs

/-- The index-based comprehension over `range (len - 1)` enumerates exactly
the adjacent pairs, i.e. the zip of the list with its tail. -/
theorem adjacent_pairs_eq_zip_tail (l : List Int) :
    (List.range (l.length - 1)).map (fun i => (l.getD i 0, l.getD (i + 1) 0)) =
      l.zip l.tail := by
  induction l with
  | nil => rfl
  | cons a rest ih =>
    cases rest with
    | nil => rfl
    | cons b t =>
      have hlen : (a :: b :: t).length - 1 = ((b :: t).length - 1) + 1 := by
        simp
      rw [hlen, List.range_succ_eq_map, List.map_cons, List.map_map]
      have hfun :
          ((fun i => ((a :: b :: t).getD i 0, (a :: b :: t).getD (i + 1) 0)) ∘
              Nat.succ) =
            fun i => ((b :: t).getD i 0, (b :: t).getD (i + 1) 0) := by
        funext i
        simp [Function.comp]
      rw [hfun, ih]
      rfl

/-- First element via `getD 0` agrees with `headD`. -/
theorem getD_zero_eq_headD (l : List Int) : l.getD 0 0 = l.headD 0 := by
  cases l <;> rfl

/-- For a nonempty list, `getLastD` does not depend on the default. -/
theorem getLastD_default_irrel (l : List Int) (h : l ≠ []) (d d' : Int) :
    l.getLastD d = l.getLastD d' := by
  rw [List.getLastD_eq_getLast?, List.getLastD_eq_getLast?]
  rcases List.getLast?_isSome.mpr h with hs
  cases hx : l.getLast? with
  | none => rw [hx] at hs; simp at hs
  | some x => simp [hx]

/-- Indexing at `length - 1` retrieves the last element. -/
theorem getD_length_sub_one (l : List Int) (h : l ≠ []) :
    l.getD (l.length - 1) 0 = l.getLastD 0 := by
  induction l with
  | nil => cases h rfl
  | cons a rest ih =>
    cases rest with
    | nil => rfl
    | cons b t =>
      have h2 : (b :: t) ≠ [] := by simp
      have hlen : (a :: b :: t).length - 1 = ((b :: t).length - 1) + 1 := by
        simp
      rw [hlen]
      have : (a :: b :: t).getD (((b :: t).length - 1) + 1) 0 =
          (b :: t).getD ((b :: t).length - 1) 0 := by
        simp
      rw [this, ih h2]
      have hl : (a :: b :: t).getLastD 0 = (b :: t).getLastD a := rfl
      rw [hl, getLastD_default_irrel (b :: t) h2 a 0]

/-- Every pair of the zip of a strictly ascending list with its tail is
strictly increasing. -/
theorem zip_tail_lt_of_chain (l : List Int) (h : List.Chain' (· < ·) l) :
    ∀ p ∈ l.zip l.tail, p.1 < p.2 := by
  induction l with
  | nil => intro p hp; simp at hp
  | cons a rest ih =>
    cases rest with
    | nil => intro p hp; simp at hp
    | cons b t =>
      intro p hp
      rcases List.chain'_cons.mp h with ⟨hab, hbt⟩
      rw [List.tail_cons, List.zip_cons_cons] at hp
      rcases List.mem_cons.mp hp with rfl | hp
      · exact hab
      · exact ih hbt p hp

/-- Both components of a pair drawn from the zip with the tail belong to
the list. -/
theorem zip_tail_mem (l : List Int) :
    ∀ p ∈ l.zip l.tail, p.1 ∈ l ∧ p.2 ∈ l := by
  intro p hp
  rcases List.of_mem_zip hp with ⟨h1, h2⟩
  exact ⟨h1, List.mem_of_mem_tail h2⟩

/-- The head of a strictly ascending list with at least two elements is
strictly below its last element. -/
theorem headD_lt_getLastD (a : Int) (l : List Int) (hne : l ≠ [])
    (h : List.Chain' (· < ·) (a :: l)) : a < l.getLastD 0 := by
  induction l generalizing a with
  | nil => cases hne rfl
  | cons b t ih =>
    rcases List.chain'_cons.mp h with ⟨hab, hbt⟩
    cases t with
    | nil => exact hab
    | cons c u =>
      have h2 : (c :: u) ≠ [] := by simp
      have hb : b < (c :: u).getLastD 0 := ih b h2 hbt
      have heq : (b :: c :: u).getLastD 0 = (c :: u).getLastD 0 := by
        have : (b :: c :: u).getLastD 0 = (c :: u).getLastD b := rfl
        rw [this, getLastD_default_irrel (c :: u) h2 b 0]
      rw [heq]
      exact lt_trans hab hb

/-- Closed form of `generate_comparison_pairs`: the zip with the tail
(adjacent pairs in index order) followed, only beyond two elements, by the
first/last pair. -/
theorem pairs_eq_form (versions : List Int) :
    generate_comparison_pairs versions =
      if versions.length < 2 then []
      else versions.zip versions.tail ++
        (if 2 < versions.length then
          [(versions.headD 0, versions.getLastD 0)] else []) := by
  by_cases hlt : versions.length < 2
  · simp [generate_comparison_pairs, hlt]
  · have hne : versions ≠ [] := by
      intro hnil
      rw [hnil] at hlt
      exact hlt (by decide)
    by_cases hgt : 2 < versions.length
    · simp only [generate_comparison_pairs, if_neg hlt, if_pos hgt,
        adjacent_pairs_eq_zip_tail]
      rw [getD_zero_eq_headD, getD_length_sub_one versions hne]
    · simp only [generate_comparison_pairs, if_neg hlt, if_neg hgt,
        adjacent_pairs_eq_zip_tail, List.append_nil]

/-- C1: `generate_comparison_pairs` returns the empty sequence for fewer
than 2 versions; otherwise all adjacent pairs in ascending order of index
followed, only when the length exceeds 2, by the extra first/last pair; for
exactly two versions the output is exactly the single adjacent pair; the
spec's three worked examples hold. -/
theorem generate_comparison_pairs_spec :
    (∀ versions : List Int,
      generate_comparison_pairs versions =
        if versions.length < 2 then []
        else versions.zip versions.tail ++
          (if 2 < versions.length then
            [(versions.headD 0, versions.getLastD 0)] else []))
    ∧ (∀ a b : Int, generate_comparison_pairs [a, b] = [(a, b)])
    ∧ generate_comparison_pairs [1, 2] = [(1, 2)]
    ∧ generate_comparison_pairs [1, 2, 3] = [(1, 2), (2, 3), (1, 3)]
    ∧ generate_comparison_pairs [1, 2, 3, 4] =
        [(1, 2), (2, 3), (3, 4), (1, 4)] := by
  refine ⟨pairs_eq_form, ?_, by decide, by decide, by decide⟩
  intro a b
  simp [generate_comparison_pairs, List.range, List.range.loop]

/-- C9: for a list of `n` versions the generator returns `n - 1` pairs when
`n ≤ 2` (so none for `n = 0` or `n = 1`) and `n` pairs when `n > 2`, and in
the latter case the first/last pair is the last element of the output. -/
theorem generate_comparison_pairs_count (versions : List Int) :
    (generate_comparison_pairs versions).length =
      (if versions.length ≤ 2 then versions.length - 1 else versions.length)
    ∧ (2 < versions.length →
        (generate_comparison_pairs versions).getLast? =
          some (versions.headD 0, versions.getLastD 0)) := by
  have hform := pairs_eq_form versions
  have hzlen : (versions.zip versions.tail).length = versions.length - 1 := by
    rw [List.length_zip, List.length_tail]
    exact Nat.min_eq_right (Nat.sub_le _ _)
  constructor
  · by_cases hlt : versions.length < 2
    · have hle : versions.length ≤ 2 := Nat.le_of_lt hlt
      rw [hform, if_pos hlt, if_pos hle]
      interval_cases h : versions.length <;> simp
    · by_cases hgt : 2 < versions.length
      · have hle : ¬ versions.length ≤ 2 := Nat.not_le.mpr hgt
        rw [hform, if_neg hlt, if_pos hgt, if_neg hle,
          List.length_append, hzlen]
        have h1 : 1 ≤ versions.length := by omega
        simp
        omega
      · have heq : versions.length = 2 := by omega
        rw [hform, if_neg hlt, if_neg hgt, if_pos (by omega), List.append_nil,
          hzlen]
  · intro hgt
    have hlt : ¬ versions.length < 2 := by omega
    rw [hform, if_neg hlt, if_pos hgt]
    simp

/-- C10: on a strictly ascending version list, every emitted pair `(a, b)`
satisfies `a < b`; in particular no self-pair `(v, v)` is ever produced. -/
theorem generate_comparison_pairs_increasing (versions : List Int)
    (h : List.Chain' (· < ·) versions) :
    ∀ p ∈ generate_comparison_pairs versions, p.1 < p.2 := by
  intro p hp
  rw [pairs_eq_form versions] at hp
  by_cases hlt : versions.length < 2
  · rw [if_pos hlt] at hp; simp at hp
  · rw [if_neg hlt] at hp
    rcases List.mem_append.mp hp with hp | hp
    · exact zip_tail_lt_of_chain versions h p hp
    · by_cases hgt : 2 < versions.length
      · rw [if_pos hgt] at hp
        rcases List.mem_singleton.mp hp with rfl
        show versions.headD 0 < versions.getLastD 0
        cases versions with
        | nil => simp at hlt
        | cons a rest =>
          have hne : rest ≠ [] := by
            intro hr; rw [hr] at hlt; exact hlt (by simp)
          have hlast : (a :: rest).getLastD 0 = rest.getLastD 0 := by
            rw [List.getLastD_cons, getLastD_default_irrel rest hne a 0]
          rw [List.headD_cons, hlast]
          exact headD_lt_getLastD a rest hne h
      · rw [if_neg hgt] at hp; simp at hp

/-- C10 witness: the pair `(1, 3)` emitted for the strictly ascending input
`[1, 2, 3]` is strictly increasing. -/
theorem generate_comparison_pairs_increasing_witness : (1 : Int) < 3 :=
  generate_comparison_pairs_increasing [1, 2, 3]
    (by norm_num [List.chain'_cons]) (1, 3) (by decide)

/-- C9 witness: for the concrete input `[1, 2, 3]` of length 3 the last
emitted pair is the first/last pair `(1, 3)`. -/
theorem generate_comparison_pairs_count_witness :
    (generate_comparison_pairs [1, 2, 3]).getLast? = some (1, 3) :=
  (generate_comparison_pairs_count [1, 2, 3]).2 (by decide)

/-- One row of the backing batch table (columns `Batch`, `batch_count`,
`portal_status`, `reason`; src/utils.py lines 19-35). -/
structure SourceRow where
  Batch : String
  batch_count : Int
  portal_status : String
  reason : String
deriving DecidableEq, Repr

/-- One entry of the DataFrame built by `load_data` (src/utils.py
lines 39-48). -/
structure DocumentRecord where
  batch : String
  type : String
  version : Int
  file_path : String
  filename : String
  timestamp : String
  portal_status : String
  reason : String
deriving DecidableEq, Repr

/-- Embedding of the row-expansion loop of `load_data` (src/utils.py
lines 30-50): for each source row and for each document type in
`['CI', 'PL']` one record is appended, with storage key
`f'\x7bdoc_type\x7d/\x7bbatch\x7d/\x7bbatch\x7d_\x7bcount\x7d.pdf'` and
filename `f'\x7bbatch\x7d_\x7bcount\x7d.pdf'`.  The `datetime.now()`
timestamp is passed in as `now`. -/
def load_data (now : String) (rows : List SourceRow) : List DocumentRecord :=
  rows.flatMap (fun row =>
    (["CI", "PL"]).map (fun doc_type =>
      let s3_key := doc_type ++ "/" ++ row.Batch ++ "/" ++ row.Batch ++ "_" ++
        toString row.batch_count ++ ".pdf"
      { batch := row.Batch
        type := doc_type
        version := row.batch_count
        file_path := s3_key
        filename := row.Batch ++ "_" ++ toString row.batch_count ++ ".pdf"
        timestamp := now
        portal_status := row.portal_status
        reason := row.reason }))

/-- The record the SPEC says the loader yields for a given row and document
type: batch and version copied from the row, storage key
`\x7btype\x7d/\x7bbatch\x7d/\x7bbatch\x7d_\x7bversion\x7d.pdf`, filename
`\x7bbatch\x7d_\x7bversion\x7d.pdf`, carrying the row's portal status and
reason.  Stated from the spec's words, to be compared with `load_data`. -/
def spec_record (now : String) (doc_type : String) (row : SourceRow) :
    DocumentRecord :=
  { batch := row.Batch
    type := doc_type
    version := row.batch_count
    file_path := doc_type ++ "/" ++ row.Batch ++ "/" ++ row.Batch ++ "_" ++
      toString row.batch_count ++ ".pdf"
    filename := row.Batch ++ "_" ++ toString row.batch_count ++ ".pdf"
    timestamp := now
    portal_status := row.portal_status
    reason := row.reason }

/-- C4: the loader yields, for every source row, exactly the two records
described by the spec — one per document type, CI first then PL — and on the
concrete row `(B001, 1, Accepted, '')` it yields exactly the records with
keys `CI/B001/B001_1.pdf` and `PL/B001/B001_1.pdf`, both carrying the row's
portal status and reason. -/
theorem load_data_expansion :
    (∀ (now : String) (rows : List SourceRow),
      load_data now rows = rows.flatMap (fun row =>
        [spec_record now "CI" row, spec_record now "PL" row]))
    ∧ load_data "T" [⟨"B001", 1, "Accepted", ""⟩] =
        [{ batch := "B001", type := "CI", version := 1,
           file_path := "CI/B001/B001_1.pdf", filename := "B001_1.pdf",
           timestamp := "T", portal_status := "Accepted", reason := "" },
         { batch := "B001", type := "PL", version := 1,
           file_path := "PL/B001/B001_1.pdf", filename := "B001_1.pdf",
           timestamp := "T", portal_status := "Accepted", reason := "" }] := by
  constructor
  · intro now rows
    rfl
  · decide

/-- An audit-trail entry as seen by the export: a Python dict, i.e. an
association list of field name to string value, keys distinct, in insertion
order. -/
def AuditRow : Type := List (String × String)

instance : DecidableEq AuditRow := by
  unfold AuditRow
  infer_instance

/-- First-occurrence deduplication, modelling the iteration over
`set().union(*(row.keys() for row in audit_trail))` (src/utils.py line 251);
Python set iteration order is modelled as first-occurrence order — all
claims about the field names depend only on the underlying set. -/
def dedupKeep : List String → List String
  | [] => []
  | x :: xs => x :: (dedupKeep xs).filter (fun y => y != x)

theorem mem_dedupKeep (l : List String) (k : String) :
    k ∈ dedupKeep l ↔ k ∈ l := by
  induction l with
  | nil => simp [dedupKeep]
  | cons x xs ih =>
    simp only [dedupKeep, List.mem_cons, List.mem_filter, bne_iff_ne, ih]
    constructor
    · rintro (rfl | ⟨hk, _⟩)
      · exact Or.inl rfl
      · exact Or.inr hk
    · rintro (rfl | hk)
      · exact Or.inl rfl
      · by_cases hx : k = x
        · exact Or.inl hx
        · exact Or.inr ⟨hk, hx⟩

/-- `fieldnames = list(all_keys)` where `all_keys` is the union of the keys
of all entries (src/utils.py lines 251-252). -/
def fieldnamesOf (audit_trail : List AuditRow) : List String :=
  dedupKeep ((audit_trail.map (fun row => row.map Prod.fst)).flatten)

/-- Minimal CSV quoting as performed by `csv.writer` with the default
QUOTE_MINIMAL dialect: a field containing a delimiter, a quote character or
a line-break character is wrapped in quotes with inner quotes doubled. -/
def csvQuote (s : String) : String :=
  if s.contains ',' || s.contains '\"' || s.contains '\n' || s.contains '\r'
  then "\"" ++ s.replace "\"" "\"\"" ++ "\""
  else s

/-- One physical CSV line: quoted cells joined by commas, terminated by the
writer's default `'\r\n'`. -/
def csvLine (cells : List String) : String :=
  String.intercalate "," (cells.map csvQuote) ++ "\r\n"

/-- The rows written by `export_audit_trail`'s writer (src/utils.py lines
256-259): the header (`writeheader`) followed, for each entry in order, by
`\x7bkey: row.get(key) for key in fieldnames\x7d` — the entry's value for
each field, the empty string when the field is absent (`DictWriter` renders
the `None` from `row.get` as an empty cell). -/
def csv_rows (audit_trail : List AuditRow) : List (List String) :=
  let fns := fieldnamesOf audit_trail
  fns :: audit_trail.map (fun row => fns.map (fun k => (row.lookup k).getD ""))

/-- The full text accumulated in the StringIO buffer. -/
def csv_content (audit_trail : List AuditRow) : String :=
  String.join ((csv_rows audit_trail).map csvLine)

/-- Embedding of `export_audit_trail` (src/utils.py lines 246-276).  The
upload to S3 is an external capability whose outcome is the `uploadResult`
argument; the second component of the result records the upload calls that
were performed (destination key and content).  An empty trail returns the
empty string before any upload.  Otherwise the CSV text is built, the
upload is attempted, and — since the source wraps the upload in no
try/except — an upload exception propagates to the caller (`Except.error`),
while on success the buffer text is returned. -/
def export_audit_trail (today : String) (uploadResult : Except String Unit)
    (audit_trail : List AuditRow) :
    Except String String × List (String × String) :=
  if audit_trail.isEmpty then
    (Except.ok "", [])
  else
    let content := csv_content audit_trail
    let s3_key := "audit/audit_trails/" ++ today ++ "/audit_trail.csv"
    match uploadResult with
    | Except.ok _ => (Except.ok content, [(s3_key, content)])
    | Except.error e => (Except.error e, [(s3_key, content)])

/-- C8: exporting an empty audit trail yields the empty string and performs
no upload call, whatever the external capability would have answered. -/
theorem export_audit_trail_empty (today : String)
    (uploadResult : Except String Unit) :
    export_audit_trail today uploadResult [] = (Except.ok "", []) := rfl

/-- A one-entry audit trail used as concrete input for the export
behaviour. -/
def demo_row : AuditRow := [("batch", "B001"), ("decision", "Accept")]

/-- C2 counterexample: with a non-empty trail and a failing persistence
step, `export_audit_trail` propagates the failure instead of returning the
in-memory CSV text — the claim that the text is returned regardless of
persistence is false on the code. -/
theorem export_audit_trail_failure_counterexample :
    (export_audit_trail "2026-10-12" (Except.error "AccessError")
        [demo_row]).1 = Except.error "AccessError"
    ∧ (export_audit_trail "2026-10-12" (Except.error "AccessError")
        [demo_row]).1 ≠ Except.ok (csv_content [demo_row]) := by
  constructor
  · rfl
  · intro h
    simp [export_audit_trail, demo_row] at h

/-- C2 amended: for a non-empty audit trail the in-memory CSV text is
returned exactly when the persistence step succeeds; when persistence fails
the failure propagates to the caller and no text is returned; in both cases
one upload of the text to the day-granular destination key is attempted. -/
theorem export_audit_trail_result (today : String)
    (uploadResult : Except String Unit) (audit_trail : List AuditRow)
    (h : audit_trail ≠ []) :
    (export_audit_trail today uploadResult audit_trail).1 =
      uploadResult.map (fun _ => csv_content audit_trail)
    ∧ (export_audit_trail today uploadResult audit_trail).2 =
      [("audit/audit_trails/" ++ today ++ "/audit_trail.csv",
        csv_content audit_trail)] := by
  have hne : audit_trail.isEmpty = false := by
    simpa [List.isEmpty_iff] using h
  cases uploadResult with
  | ok u => simp [export_audit_trail, hne, Except.map]
  | error e => simp [export_audit_trail, hne, Except.map]

/-- C2 amended, witness: on the one-entry trail with a successful upload the
CSV text is returned and one upload call to the dated key is recorded. -/
theorem export_audit_trail_result_witness :
    (export_audit_trail "2026-10-12" (Except.ok ()) [demo_row]).1 =
      Except.ok (csv_content [demo_row])
    ∧ (export_audit_trail "2026-10-12" (Except.ok ()) [demo_row]).2 =
      [("audit/audit_trails/2026-10-12/audit_trail.csv",
        csv_content [demo_row])] :=
  export_audit_trail_result "2026-10-12" (Except.ok ()) [demo_row] (by simp)

/-- C5: for a non-empty audit trail, possibly with heterogeneous key sets,
the serialized output consists of exactly one header row — whose column set
is the union of the keys of all entries, computed from the whole trail —
followed by one data row per entry in order, each data row carrying one
(possibly empty) cell for every column of the header: no row omits a
column. -/
theorem export_csv_columns (audit_trail : List AuditRow)
    (_h : audit_trail ≠ []) :
    (∀ k, k ∈ fieldnamesOf audit_trail ↔
        ∃ row ∈ audit_trail, k ∈ row.map Prod.fst)
    ∧ csv_rows audit_trail =
        fieldnamesOf audit_trail ::
          audit_trail.map (fun row =>
            (fieldnamesOf audit_trail).map (fun k => (row.lookup k).getD ""))
    ∧ (csv_rows audit_trail).length = audit_trail.length + 1
    ∧ ∀ r ∈ (csv_rows audit_trail).tail,
        r.length = (fieldnamesOf audit_trail).length := by
  refine ⟨?_, rfl, by simp [csv_rows], ?_⟩
  · intro k
    simp only [fieldnamesOf, mem_dedupKeep, List.mem_flatten]
    constructor
    · rintro ⟨l, hl, hk⟩
      rcases List.mem_map.mp hl with ⟨row, hrow, rfl⟩
      exact ⟨row, hrow, hk⟩
    · rintro ⟨row, hrow, hk⟩
      exact ⟨row.map Prod.fst, List.mem_map_of_mem _ hrow, hk⟩
  · intro r hr
    simp only [csv_rows, List.tail_cons, List.mem_map] at hr
    rcases hr with ⟨row, _, rfl⟩
    simp

/-- A concrete two-entry audit trail with heterogeneous key sets (the
second entry is missing the `notes` field). -/
def demo_trail : List AuditRow :=
  [[("timestamp", "t1"), ("batch", "B001"), ("notes", "ok")],
   [("timestamp", "t2"), ("batch", "B002")]]

/-- C5 witness: on the concrete heterogeneous two-entry trail the export
has one header row plus two data rows, and the data row of the entry
missing `notes` still has one cell per header column. -/
theorem export_csv_columns_witness :
    (csv_rows demo_trail).length = 3
    ∧ ((csv_rows demo_trail).getD 2 []).length =
        (fieldnamesOf demo_trail).length := by
  constructor
  · have := (export_csv_columns demo_trail (by simp [demo_trail])).2.2.1
    simpa [demo_trail] using this
  · exact (export_csv_columns demo_trail (by simp [demo_trail])).2.2.2
      ((csv_rows demo_trail).getD 2 []) (by decide)

/-- One audit entry as constructed by the Save Batch Review handler
(src/app.py lines 185-193). -/
structure AuditEntry where
  timestamp : String
  batch : String
  doc_type : String
  v1_v2 : String
  status : String
  notes : String
  decision : String
deriving DecidableEq, Repr

/-- The Streamlit session state fields the review logic reads and writes
(src/app.py lines 52-105).  `version_1`, `version_2` and
`selected_comparison` are `Option`s because the corresponding keys may be
absent from `st.session_state` before they are first assigned.
`batch_statuses` models the Python dict as an association list in which
assignment prepends a binding and `get` takes the most recent one. -/
structure SessionState where
  batch : String
  doc_type : String
  version_1 : Option Int
  version_2 : Option Int
  selected_comparison : Option (Int × Int)
  batch_statuses : List (String × String)
  audit_trail : List AuditEntry
  review_notes : String
  review_decision : String
deriving DecidableEq, Repr

/-- Embedding of the comparison pair button handler (src/app.py lines
161-165): clicking the button labelled `Ver v1 vs v2` sets
`selected_comparison = (v1, v2)` and `version_1, version_2 = v1, v2`,
with no validation of any kind. -/
def select_comparison_click (v1 v2 : Int) (s : SessionState) : SessionState :=
  { s with selected_comparison := some (v1, v2),
           version_1 := some v1, version_2 := some v2 }

/-- Rendering of a session version field inside the f-string
`f"\x7bst.session_state.version_1\x7d-\x7bst.session_state.version_2\x7d"`.
The `none` case is unreachable in the app: `update_document_options` runs at
startup (src/app.py line 105) and assigns both keys before any save. -/
def vstr : Option Int → String
  | some v => toString v
  | none => ""

/-- The dict literal built by the Save Batch Review handler (src/app.py
lines 185-193), with `datetime.now()` passed in as `now`. -/
def mk_audit_entry (now : String) (s : SessionState) : AuditEntry :=
  { timestamp := now
    batch := s.batch
    doc_type := s.doc_type
    v1_v2 := vstr s.version_1 ++ "-" ++ vstr s.version_2
    status := "reviewed"
    notes := s.review_notes
    decision := s.review_decision }

/-- Embedding of the Save Batch Review handler (src/app.py lines 182-194):
it sets `batch_statuses[f"\x7bbatch\x7d/\x7bdoc_type\x7d"] = 'reviewed'` and
appends the audit entry to `audit_trail`. -/
def save_batch_review (now : String) (s : SessionState) : SessionState :=
  let key := s.batch ++ "/" ++ s.doc_type
  { s with batch_statuses := (key, "reviewed") :: s.batch_statuses,
           audit_trail := s.audit_trail ++ [mk_audit_entry now s] }

/-- Embedding of `get_batch_status` (src/app.py lines 86-89):
`batch_statuses.get(key, 'not-reviewed')`. -/
def get_batch_status (s : SessionState) (batch doc_type : String) : String :=
  ((s.batch_statuses).lookup (batch ++ "/" ++ doc_type)).getD "not-reviewed"

/-- Insertion into an ascending list, the building block of the model of
Python `sorted`. -/
def insertSorted (x : Int) : List Int → List Int
  | [] => [x]
  | y :: ys => if x ≤ y then x :: y :: ys else y :: insertSorted x ys

/-- Ascending insertion sort, modelling Python `sorted` on integers. -/
def sortAsc (l : List Int) : List Int := l.foldr insertSorted []

/-- First-occurrence deduplication on integers, modelling
`pandas.Series.unique` (whose result feeds `sorted`, so only the
underlying set matters). -/
def dedupInt : List Int → List Int
  | [] => []
  | x :: xs => x :: (dedupInt xs).filter (fun y => y != x)

/-- The version list `sorted(filtered['version'].unique())` derived for a
(batch, document type) selection (src/app.py lines 76-78 and 142-144). -/
def derive_versions (df : List DocumentRecord) (batch doc_type : String) :
    List Int :=
  sortAsc (dedupInt
    ((df.filter (fun r => r.batch == batch && r.type == doc_type)).map
      (fun r => r.version)))

/-- Embedding of `update_document_options` (src/app.py lines 74-84): after
re-deriving the version list for the current (batch, type) selection, each
of `version_1` and `version_2` is independently reset when it is unset or
absent from the new list — `version_1` to `versions[0]`, `version_2` to
`versions[1]` if a second version exists, else `versions[0]` — and kept
unchanged otherwise; nothing happens when the list is empty. -/
def update_document_options (df : List DocumentRecord) (s : SessionState) :
    SessionState :=
  let versions := derive_versions df s.batch s.doc_type
  if versions.length ≥ 1 then
    let v1 := match s.version_1 with
      | none => versions.getD 0 0
      | some v => if v ∈ versions then v else versions.getD 0 0
    let v2 := match s.version_2 with
      | none => if versions.length > 1 then versions.getD 1 0
                else versions.getD 0 0
      | some v => if v ∈ versions then v
                  else if versions.length > 1 then versions.getD 1 0
                  else versions.getD 0 0
    { s with version_1 := some v1, version_2 := some v2 }
  else s

/-- The default head of a nonempty list is a member. -/
theorem headD_mem (l : List Int) (h : l ≠ []) : l.headD 0 ∈ l := by
  cases l with
  | nil => cases h rfl
  | cons a t => simp

/-- The default last element of a nonempty list is a member. -/
theorem getLastD_mem (l : List Int) (h : l ≠ []) : l.getLastD 0 ∈ l := by
  induction l with
  | nil => cases h rfl
  | cons a t ih =>
    cases t with
    | nil => simp
    | cons b u =>
      have h2 : (b :: u) ≠ [] := by simp
      rw [List.getLastD_cons, getLastD_default_irrel (b :: u) h2 a 0]
      exact List.mem_cons_of_mem a (ih h2)

/-- A concrete session state with an active comparison, used as the prior
state in the selection claims. -/
def s_demo : SessionState :=
  { batch := "B001", doc_type := "CI", version_1 := some 1,
    version_2 := some 2, selected_comparison := some (1, 2),
    batch_statuses := [], audit_trail := [], review_notes := "",
    review_decision := "Accept" }

/-- C3 counterexample: invoking the pair selection handler with the equal
pair `(1, 1)` does not fail and does not leave the prior state unchanged —
it overwrites the selection, refuting the claim that an invalid selection
is rejected with `ValidationError` and mutates nothing.  (No
`ValidationError` exists anywhere in the source.) -/
theorem select_comparison_counterexample :
    (select_comparison_click 1 1 s_demo).selected_comparison = some (1, 1)
    ∧ select_comparison_click 1 1 s_demo ≠ s_demo := by
  constructor
  · rfl
  · decide

/-- C3 amended: the pair selection handler performs no validation — for any
pair whatsoever it unconditionally overwrites `selected_comparison`,
`version_1` and `version_2` and raises nothing; invalid pairs are instead
prevented structurally, because the UI offers only the pairs produced by
`generate_comparison_pairs` of the available version list, and on a
strictly ascending version list every such pair has both components in the
list and the components distinct. -/
theorem select_comparison_no_validation :
    (∀ (v1 v2 : Int) (s : SessionState),
      select_comparison_click v1 v2 s =
        { s with selected_comparison := some (v1, v2),
                 version_1 := some v1, version_2 := some v2 })
    ∧ (∀ versions : List Int, List.Chain' (· < ·) versions →
        ∀ p ∈ generate_comparison_pairs versions,
          p.1 ∈ versions ∧ p.2 ∈ versions ∧ p.1 ≠ p.2) := by
  constructor
  · intro v1 v2 s
    rfl
  · intro versions hch p hp
    rw [pairs_eq_form versions] at hp
    by_cases hlt : versions.length < 2
    · rw [if_pos hlt] at hp; simp at hp
    · rw [if_neg hlt] at hp
      have hne : versions ≠ [] := by
        intro hnil; rw [hnil] at hlt; exact hlt (by decide)
      rcases List.mem_append.mp hp with hp | hp
      · rcases zip_tail_mem versions p hp with ⟨h1, h2⟩
        exact ⟨h1, h2, ne_of_lt (zip_tail_lt_of_chain versions hch p hp)⟩
      · by_cases hgt : 2 < versions.length
        · rw [if_pos hgt] at hp
          rcases List.mem_singleton.mp hp with rfl
          refine ⟨headD_mem versions hne, getLastD_mem versions hne, ?_⟩
          show versions.headD 0 ≠ versions.getLastD 0
          cases versions with
          | nil => cases hne rfl
          | cons a rest =>
            have hrne : rest ≠ [] := by
              intro hr; rw [hr] at hlt; exact hlt (by simp)
            have hlast : (a :: rest).getLastD 0 = rest.getLastD 0 := by
              rw [List.getLastD_cons, getLastD_default_irrel rest hrne a 0]
            rw [List.headD_cons, hlast]
            exact ne_of_lt (headD_lt_getLastD a rest hrne hch)
        · rw [if_neg hgt] at hp; simp at hp

/-- C3 amended, witness: the handler applied to `(3, 4)` on the concrete
prior state yields exactly the overwritten state, and the pair `(1, 2)`
offered for the strictly ascending list `[1, 2, 3]` has both components in
the list and distinct. -/
theorem select_comparison_no_validation_witness :
    select_comparison_click 3 4 s_demo =
      { s_demo with selected_comparison := some (3, 4),
                    version_1 := some 3, version_2 := some 4 }
    ∧ (1 : Int) ∈ [(1 : Int), 2, 3] ∧ (2 : Int) ∈ [(1 : Int), 2, 3]
    ∧ (1 : Int) ≠ 2 := by
  refine ⟨select_comparison_no_validation.1 3 4 s_demo, ?_⟩
  have h := select_comparison_no_validation.2 [1, 2, 3]
    (by norm_num [List.chain'_cons]) (1, 2) (by decide)
  exact ⟨h.1, h.2.1, h.2.2⟩

/-- Folding a sequence of Save Batch Review actions, one per timestamp, over
a session state. -/
def run_saves (ts : List String) (s : SessionState) : SessionState :=
  ts.foldl (fun st t => save_batch_review t st) s

/-- A save action changes only `batch_statuses` and `audit_trail`: the
entry built at any later step therefore snapshots the same selection
fields. -/
theorem mk_audit_entry_save (u t : String) (s : SessionState) :
    mk_audit_entry u (save_batch_review t s) = mk_audit_entry u s := rfl

/-- Audit trail accumulated by a run of saves: the prior trail followed by
one entry per timestamp, in order. -/
theorem run_saves_audit (ts : List String) :
    ∀ s : SessionState,
      (run_saves ts s).audit_trail =
        s.audit_trail ++ ts.map (fun t => mk_audit_entry t s) := by
  induction ts with
  | nil => intro s; simp [run_saves]
  | cons t ts ih =>
    intro s
    show (run_saves ts (save_batch_review t s)).audit_trail = _
    rw [ih (save_batch_review t s)]
    have h1 : (save_batch_review t s).audit_trail =
        s.audit_trail ++ [mk_audit_entry t s] := rfl
    simp [h1, mk_audit_entry_save]

/-- After at least one save, the review status of the current (batch, type)
key reads `reviewed`. -/
theorem run_saves_status (ts : List String) :
    ∀ s : SessionState, ts ≠ [] →
      get_batch_status (run_saves ts s) s.batch s.doc_type = "reviewed" := by
  induction ts with
  | nil => intro s h; cases h rfl
  | cons t ts ih =>
    intro s _
    by_cases hts : ts = []
    · subst hts
      show get_batch_status (save_batch_review t s) s.batch s.doc_type =
        "reviewed"
      simp [get_batch_status, save_batch_review, List.lookup]
    · exact ih (save_batch_review t s) hts

/-- C6: starting from a fresh session (empty audit list), every save
appends exactly one entry — with status fixed to `reviewed` and the version
pair label `vA-vB` — and marks the current (batch, type) reviewed; after N
saves the audit list holds exactly the N entries in the order they were
appended, none edited, deleted or overwritten. -/
theorem save_review_append_only (ts : List String) (s0 : SessionState)
    (h0 : s0.audit_trail = []) :
    (∀ (t : String) (s : SessionState),
      (save_batch_review t s).audit_trail =
        s.audit_trail ++ [mk_audit_entry t s]
      ∧ (mk_audit_entry t s).status = "reviewed"
      ∧ (mk_audit_entry t s).v1_v2 =
          vstr s.version_1 ++ "-" ++ vstr s.version_2
      ∧ get_batch_status (save_batch_review t s) s.batch s.doc_type =
          "reviewed")
    ∧ (run_saves ts s0).audit_trail = ts.map (fun t => mk_audit_entry t s0)
    ∧ (run_saves ts s0).audit_trail.length = ts.length
    ∧ (ts ≠ [] →
        get_batch_status (run_saves ts s0) s0.batch s0.doc_type =
          "reviewed") := by
  have haudit : (run_saves ts s0).audit_trail =
      ts.map (fun t => mk_audit_entry t s0) := by
    rw [run_saves_audit ts s0, h0]
    rfl
  refine ⟨?_, haudit, by rw [haudit]; simp, fun h => run_saves_status ts s0 h⟩
  intro t s
  refine ⟨rfl, rfl, rfl, ?_⟩
  simp [get_batch_status, save_batch_review, List.lookup]

/-- C6 witness: two saves on the concrete fresh state yield exactly the two
entries in order. -/
theorem save_review_append_only_witness :
    (run_saves ["t1", "t2"] s_demo).audit_trail =
      [mk_audit_entry "t1" s_demo, mk_audit_entry "t2" s_demo]
    ∧ (run_saves ["t1", "t2"] s_demo).audit_trail.length = 2 :=
  ⟨(save_review_append_only ["t1", "t2"] s_demo rfl).2.1,
   (save_review_append_only ["t1", "t2"] s_demo rfl).2.2.1⟩

/-- A session version field is stale for a version list when the field is
unset or its value is absent from the list — the condition under which
`update_document_options` overwrites it. -/
def staleIn (versions : List Int) : Option Int → Bool
  | none => true
  | some v => decide (v ∉ versions)

/-- The value an invalid first endpoint is reset to: the first sorted
version. -/
def reset_target_1 (versions : List Int) : Int := versions.getD 0 0

/-- The value an invalid second endpoint is reset to: the second sorted
version, or the single version when only one exists. -/
def reset_target_2 (versions : List Int) : Int :=
  if versions.length > 1 then versions.getD 1 0 else versions.getD 0 0

/-- The catalog of a single batch `B` with three versions of each document
type, used as concrete input for the option-update claims. -/
def df_demo : List DocumentRecord :=
  load_data "T" [⟨"B", 1, "Pending", ""⟩, ⟨"B", 2, "Pending", ""⟩,
    ⟨"B", 3, "Pending", ""⟩]

/-- A session state whose first chosen version (5) is no longer available
for the current (batch, type) key while the second (3) still is. -/
def s_stale : SessionState :=
  { batch := "B", doc_type := "CI", version_1 := some 5, version_2 := some 3,
    selected_comparison := none, batch_statuses := [], audit_trail := [],
    review_notes := "", review_decision := "Accept" }

/-- C7 counterexample: for available versions `[1, 2, 3]` and the stale
pair `(5, 3)` — invalid because 5 is gone — the update yields `(1, 3)`, not
the default pair `(1, 2)` of the first two sorted versions: the claim that
an invalid pair is reset to the default pair is false on the code, which
resets each endpoint independently and keeps the still-valid 3. -/
theorem update_document_options_counterexample :
    derive_versions df_demo "B" "CI" = [1, 2, 3]
    ∧ s_stale.version_1 = some 5
    ∧ (5 : Int) ∉ derive_versions df_demo "B" "CI"
    ∧ (update_document_options df_demo s_stale).version_1 = some 1
    ∧ (update_document_options df_demo s_stale).version_2 = some 3
    ∧ (update_document_options df_demo s_stale).version_2 ≠ some 2 := by
  decide

/-- C7 amended: on every batch or document-type change the version list is
re-derived and each endpoint of the chosen pair is validated independently:
a still-valid endpoint is kept unchanged, an unset or invalid first
endpoint is reset to the first sorted version, an unset or invalid second
endpoint is reset to the second sorted version (or the single version when
only one exists) — so the pair becomes the default pair only when both
endpoints are invalid; all other session fields are untouched, and nothing
changes when the derived version list is empty. -/
theorem update_document_options_reset (df : List DocumentRecord)
    (s : SessionState) :
    (derive_versions df s.batch s.doc_type = [] →
      update_document_options df s = s)
    ∧ (derive_versions df s.batch s.doc_type ≠ [] →
        (update_document_options df s).version_1 =
          (if staleIn (derive_versions df s.batch s.doc_type) s.version_1
           then some (reset_target_1 (derive_versions df s.batch s.doc_type))
           else s.version_1)
        ∧ (update_document_options df s).version_2 =
          (if staleIn (derive_versions df s.batch s.doc_type) s.version_2
           then some (reset_target_2 (derive_versions df s.batch s.doc_type))
           else s.version_2))
    ∧ (update_document_options df s).batch = s.batch
    ∧ (update_document_options df s).doc_type = s.doc_type
    ∧ (update_document_options df s).selected_comparison =
        s.selected_comparison
    ∧ (update_document_options df s).batch_statuses = s.batch_statuses
    ∧ (update_document_options df s).audit_trail = s.audit_trail := by
  refine ⟨?_, ?_, ?_, ?_, ?_, ?_, ?_⟩
  · intro hnil
    simp [update_document_options, hnil]
  · intro hne
    have hlen : (derive_versions df s.batch s.doc_type).length ≥ 1 :=
      List.length_pos.mpr hne
    constructor
    · cases hv : s.version_1 with
      | none =>
        simp [update_document_options, hlen, hv, staleIn, reset_target_1]
      | some a =>
        by_cases ha : a ∈ derive_versions df s.batch s.doc_type
        · simp [update_document_options, hlen, hv, ha, staleIn]
        · simp [update_document_options, hlen, hv, ha, staleIn,
            reset_target_1]
    · cases hv : s.version_2 with
      | none =>
        simp [update_document_options, hlen, hv, staleIn, reset_target_2]
      | some b =>
        by_cases hb : b ∈ derive_versions df s.batch s.doc_type
        · simp [update_document_options, hlen, hv, hb, staleIn]
        · simp [update_document_options, hlen, hv, hb, staleIn,
            reset_target_2]
  all_goals
    simp only [update_document_options]
    split <;> rfl

/-- C7 amended, witness: on the concrete catalog with versions `[1, 2, 3]`
and the stale pair `(5, 3)`, the stale first endpoint is reset to the first
sorted version and the still-valid second endpoint is kept. -/
theorem update_document_options_reset_witness :
    (update_document_options df_demo s_stale).version_1 = some 1
    ∧ (update_document_options df_demo s_stale).version_2 = some 3 := by
  have h := (update_document_options_reset df_demo s_stale).2.1 (by decide)
  constructor
  · rw [h.1]; decide
  · rw [h.2]; decide

end DocReview
